import Mathlib

set_option maxRecDepth 100000

/-!
Shallow embedding of the `aipastpaper` repository's question-block extractor
(`_extract_block`, `extract_specific_question`, `extract_specific_answer` in
`app.py`) and of the per-filename session bucketing performed inside
`get_qp_files_by_session`, together with verified properties.

The extractor runs the Python regex

  `(?ms)^\s*{escaped_q}[^\n]*\n(?:.*?\n)*?(?={next_token}|\Z)`

with `next_token = ^\s*\d+(\([a-z]\))*(\([ivxl]+\))*\b` over the document
text, where `escaped_q = re.escape(q.strip())` makes the label a literal
match target.  The embedding models this specific search directly:

* `re.search` scans candidate start positions left to right; `^` restricts
  them to position 0 and positions just after a newline (`pySearch`).
* `\s*` is greedy with backtracking (`tryWs` tries the maximal whitespace
  run first and shrinks on failure).
* `{escaped_q}` is a literal match of the stripped label (`List.isPrefixOf`).
* `[^\n]*\n` forces the label line to be newline-terminated and consumes it
  up to and including the first newline (`breakNL`).
* `(?:.*?\n)*?(?=next_token|\Z)` explores, in increasing order, the
  positions directly after a newline (starting with the end of the label
  line) and stops at the first one where the boundary pattern matches or
  the text ends (`stopSearch` / `seekNL`).
* Inside the boundary pattern, `\s*` and `\d+` are forced maximal (any
  shorter match leaves a whitespace/digit character that no later atom can
  consume), while the two parenthesized group repetitions and the final
  word boundary `\b` genuinely backtrack (`letTail` / `romTailF` decide
  existence of a successful split).

Character classes model the ASCII / Latin-1 behaviour of Python's `str`
regexes and `str.strip`, which covers every character the repository's
inputs contain.
-/

set_option autoImplicit false

namespace AipastPaper

/-- Python whitespace (`\s`, `str.strip`) on the ASCII / Latin-1 range:
space, `\t`, `\n`, `\v`, `\f`, `\r`, the file/group/record/unit
separators, NEL and NBSP. -/
def isPySpace (c : Char) : Bool :=
  c == ' ' || ('\x09' ≤ c && c ≤ '\x0d') || ('\x1c' ≤ c && c ≤ '\x1f') ||
    c == '\x85' || c == '\xa0'

/-- Python `\d` on ASCII: a decimal digit. -/
def isPyDigit (c : Char) : Bool :=
  c.isDigit

/-- Python `\w` (word character, used by `\b`) on ASCII. -/
def isWordChar (c : Char) : Bool :=
  c.isAlphanum || c == '_'

/-- The character class `[a-z]` of the boundary pattern. -/
def isLowerLetter (c : Char) : Bool :=
  'a' ≤ c && c ≤ 'z'

/-- The character class `[ivxl]` of the boundary pattern. -/
def isRomanChar (c : Char) : Bool :=
  c == 'i' || c == 'v' || c == 'x' || c == 'l'

/-- `str.strip()` on a character list: drop whitespace at both ends. -/
def stripChars (l : List Char) : List Char :=
  ((l.dropWhile isPySpace).reverse.dropWhile isPySpace).reverse

/-- `str.strip()` on a `String`. -/
def pyStrip (s : String) : String :=
  String.mk (stripChars s.data)

/-- The word boundary `\b` between a last consumed character `prev` and the
remaining text `t`: exactly one side is a word character. -/
def hasBoundary (prev : Char) (t : List Char) : Bool :=
  isWordChar prev != (match t with
    | [] => false
    | c :: _ => isWordChar c)

/-- Tail of the boundary pattern after the letter groups:
`(\([ivxl]+\))*\b`.  Tries the word boundary with zero further groups, or
consumes one `\([ivxl]+\)` group (the `+` is forced maximal: stopping the
roman run early leaves a roman character where `\)` must match) and
recurses.  `fuel` only bounds the recursion; each step consumes at least
three characters, so `t.length + 1` is always enough. -/
def romTailF : Nat → Char → List Char → Bool
  | 0, _, _ => false
  | Nat.succ fuel, prev, t =>
    hasBoundary prev t ||
      match t with
      | '(' :: rest =>
        let run := rest.takeWhile isRomanChar
        !run.isEmpty &&
          (match rest.drop run.length with
           | ')' :: rest3 => romTailF fuel ')' rest3
           | _ => false)
      | _ => false

/-- `(\([ivxl]+\))*\b` with sufficient fuel. -/
def romTail (prev : Char) (t : List Char) : Bool :=
  romTailF (t.length + 1) prev t

/-- Tail of the boundary pattern after the digits:
`(\([a-z]\))*(\([ivxl]+\))*\b`.  Tries zero letter groups, or consumes one
`\([a-z]\)` group and recurses. -/
def letTail (prev : Char) (t : List Char) : Bool :=
  romTail prev t ||
    match t with
    | '(' :: c :: ')' :: rest => isLowerLetter c && letTail ')' rest
    | _ => false

/-- The boundary (`next_token`) pattern
`^\s*\d+(\([a-z]\))*(\([ivxl]+\))*\b`, matched at a line start.  `\s*` and
`\d+` are forced maximal: a shorter `\s*` leaves a whitespace character
where `\d` must match, and a shorter `\d+` leaves a digit where `\(` or a
word boundary must follow, and a digit-digit position is never a boundary. -/
def ntMatch (t : List Char) : Bool :=
  let t1 := t.dropWhile isPySpace
  let ds := t1.takeWhile isPyDigit
  !ds.isEmpty && letTail (ds.getLastD '0') (t1.drop ds.length)

/-- From a candidate stop position strictly inside the text, find the next
candidate: skip forward to just after the next newline and test the
lookahead `(?=next_token|\Z)` there, continuing on failure.  Returns the
offset of the accepted stop position. -/
def seekNL : List Char → Option Nat
  | [] => none
  | c :: cs =>
    if c = '\n' then
      if ntMatch cs || cs.isEmpty then some 1
      else (seekNL cs).map (· + 1)
    else (seekNL cs).map (· + 1)

/-- The lazy tail `(?:.*?\n)*?(?=next_token|\Z)` starting at a candidate
stop position (just after the label line's newline): accept offset 0 if the
lookahead holds there, otherwise advance newline by newline. -/
def stopSearch (rem : List Char) : Option Nat :=
  if ntMatch rem || rem.isEmpty then some 0 else seekNL rem

/-- Split a character list at its first newline:
`breakNL l = some (pre, post)` iff `l = pre ++ '\n' :: post` with `pre`
newline-free. -/
def breakNL : List Char → Option (List Char × List Char)
  | [] => none
  | c :: cs =>
    if c = '\n' then some ([], cs)
    else (breakNL cs).map (fun p => (c :: p.1, p.2))

/-- One attempt of the main pattern at a fixed start, with `\s*` consuming
exactly `w` characters: match the literal label, consume `[^\n]*\n` (the
rest of the label line including its newline), then run the lazy tail.
Returns the end offset of the whole match. -/
def tryAt (Q rem : List Char) (w : Nat) : Option Nat :=
  if Q.isPrefixOf (rem.drop w) then
    match breakNL ((rem.drop w).drop Q.length) with
    | none => none
    | some (pre, post) =>
      (stopSearch post).map (fun e => w + Q.length + pre.length + 1 + e)
  else none

/-- Greedy `\s*` with backtracking: try `w`, then `w - 1`, ... down to 0. -/
def tryWs (Q rem : List Char) : Nat → Option Nat
  | 0 => tryAt Q rem 0
  | Nat.succ w =>
    match tryAt Q rem (Nat.succ w) with
    | some e => some e
    | none => tryWs Q rem w

/-- Attempt the main pattern at a line start: `\s*` greedily starts at the
full whitespace run. -/
def matchHere (Q rem : List Char) : Option Nat :=
  tryWs Q rem (rem.takeWhile isPySpace).length

/-- Scan the remaining start positions (each position just after a
newline), leftmost first, returning absolute (start, end) offsets. -/
def seekStart (Q : List Char) : List Char → Option (Nat × Nat)
  | [] => none
  | c :: cs =>
    if c = '\n' then
      match matchHere Q cs with
      | some e => some (1, 1 + e)
      | none => (seekStart Q cs).map (fun p => (p.1 + 1, p.2 + 1))
    else (seekStart Q cs).map (fun p => (p.1 + 1, p.2 + 1))

/-- `re.search` of the main pattern: try position 0, then every position
just after a newline, leftmost match first.  Returns the absolute
(start, end) of `m.group(0)`. -/
def pySearch (Q t : List Char) : Option (Nat × Nat) :=
  match matchHere Q t with
  | some e => some (0, e)
  | none => seekStart Q t

/-- `_extract_block(text, q)` from `app.py`: empty-input guard, then the
regex search with the stripped, literally-matched label; a found group is
stripped, otherwise the no-match marker is returned. -/
def _extract_block (text q : String) : String :=
  if pyStrip text = "" then " Not found (empty text)."
  else
    match pySearch (pyStrip q).data text.data with
    | some (s, e) => pyStrip (String.mk ((text.data.drop s).take (e - s)))
    | none => " Not found."

/-- `extract_specific_question` from `app.py`. -/
def extract_specific_question (text question_number : String) : String :=
  _extract_block text question_number

/-- `extract_specific_answer` from `app.py`. -/
def extract_specific_answer (text question_number : String) : String :=
  _extract_block text question_number

/-- Python's `"_qp_" in name`: substring test. -/
def containsSub (pat : List Char) (l : List Char) : Bool :=
  pat.isPrefixOf l ||
    match l with
    | [] => false
    | _ :: cs => containsSub pat cs

/-- Python's `name.split("_")`: split on every underscore, keeping empty
pieces. -/
def splitUnd : List Char → List (List Char)
  | [] => [[]]
  | c :: cs =>
    if c = '_' then [] :: splitUnd cs
    else
      match splitUnd cs with
      | [] => [[c]]
      | p :: ps => (c :: p) :: ps

/-- The `month_map.get(month_code, session)` lookup of
`get_qp_files_by_session`: `m`/`s`/`w` map to the three month names, any
other first character leaves the whole session code in the month
position. -/
def month_map (c : Char) (session : List Char) : List Char :=
  if c = 'm' then "March".data
  else if c = 's' then "May–June".data
  else if c = 'w' then "Oct–Nov".data
  else session

/-- The per-filename bucketing of `get_qp_files_by_session` (`app.py`,
lines 143-154): a filename containing `"_qp_"` that splits on `"_"` into
at least three parts, whose second part (the session code) has at least
two characters, is bucketed under
`"20" ++ session[1:3] ++ "-" ++ month_map.get(session[0].lower(), session)`;
any other filename is not bucketed (`none`). -/
def session_bucket (name : String) : Option String :=
  if containsSub "_qp_".data name.data then
    match splitUnd name.data with
    | _code :: session :: _ :: _ =>
      if 2 ≤ session.length then
        some (String.mk (('2' :: '0' :: (session.drop 1).take 2) ++
          '-' :: month_map (session.headD ' ').toLower session))
      else none
    | _ => none
  else none

/-! ### Where a found match ends

Every accepted stop position of the lazy tail sits directly after a
newline character of the text, so a match never extends into a trailing
line that is not newline-terminated. -/

theorem seekNL_ends_after_newline (rem : List Char) :
    ∀ e : Nat, seekNL rem = some e → 1 ≤ e ∧ rem[e - 1]? = some '\n' := by
  induction rem with
  | nil => intro e h; simp [seekNL] at h
  | cons c cs ih =>
    intro e h
    simp only [seekNL] at h
    by_cases hc : c = '\n'
    · rw [if_pos hc] at h
      by_cases hn : (ntMatch cs || cs.isEmpty) = true
      · rw [if_pos hn] at h
        injection h with h
        subst h
        exact ⟨Nat.le_refl 1, by simp [hc]⟩
      · rw [if_neg hn] at h
        rcases Option.map_eq_some'.mp h with ⟨e', he', rfl⟩
        obtain ⟨h1, h2⟩ := ih e' he'
        refine ⟨by omega, ?_⟩
        have hsh : e' + 1 - 1 = (e' - 1) + 1 := by omega
        rw [hsh, List.getElem?_cons_succ]
        exact h2
    · rw [if_neg hc] at h
      rcases Option.map_eq_some'.mp h with ⟨e', he', rfl⟩
      obtain ⟨h1, h2⟩ := ih e' he'
      refine ⟨by omega, ?_⟩
      have hsh : e' + 1 - 1 = (e' - 1) + 1 := by omega
      rw [hsh, List.getElem?_cons_succ]
      exact h2

theorem stopSearch_ends (rem : List Char) (e : Nat) (h : stopSearch rem = some e) :
    e = 0 ∨ (1 ≤ e ∧ rem[e - 1]? = some '\n') := by
  unfold stopSearch at h
  by_cases hn : (ntMatch rem || rem.isEmpty) = true
  · rw [if_pos hn] at h
    injection h with h
    exact Or.inl h.symm
  · rw [if_neg hn] at h
    exact Or.inr (seekNL_ends_after_newline rem e h)

theorem breakNL_eq (l : List Char) :
    ∀ pre post : List Char, breakNL l = some (pre, post) → l = pre ++ '\n' :: post := by
  induction l with
  | nil => intro pre post h; simp [breakNL] at h
  | cons c cs ih =>
    intro pre post h
    simp only [breakNL] at h
    by_cases hc : c = '\n'
    · rw [if_pos hc] at h
      injection h with h
      have h1 : ([] : List Char) = pre := congrArg Prod.fst h
      have h2 : cs = post := congrArg Prod.snd h
      subst h1
      subst h2
      simp [hc]
    · rw [if_neg hc] at h
      rcases Option.map_eq_some'.mp h with ⟨⟨p, q⟩, hpq, heq⟩
      have h1 : c :: p = pre := congrArg Prod.fst heq
      have h2 : q = post := congrArg Prod.snd heq
      subst h1
      subst h2
      rw [ih p q hpq]
      rfl

theorem tryAt_ends (Q rem : List Char) (w e : Nat)
    (h : tryAt Q rem w = some e) : 1 ≤ e ∧ rem[e - 1]? = some '\n' := by
  unfold tryAt at h
  by_cases hp : Q.isPrefixOf (rem.drop w) = true
  · rw [if_pos hp] at h
    rcases hbk : breakNL ((rem.drop w).drop Q.length) with _ | ⟨pre, post⟩
    · rw [hbk] at h
      simp at h
    · rw [hbk] at h
      rcases Option.map_eq_some'.mp h with ⟨e', he', rfl⟩
      have hsplit := breakNL_eq _ pre post hbk
      have hdd : (rem.drop w).drop Q.length = rem.drop (w + Q.length) :=
        List.drop_drop Q.length w rem
      refine ⟨by omega, ?_⟩
      rcases stopSearch_ends post e' he' with rfl | ⟨h1, h2⟩
      · have hix : w + Q.length + pre.length + 1 + 0 - 1 = (w + Q.length) + pre.length := by
          omega
        rw [hix, ← List.getElem?_drop, ← hdd, hsplit,
          List.getElem?_append_right (Nat.le_refl _)]
        simp
      · have hix : w + Q.length + pre.length + 1 + e' - 1 =
            (w + Q.length) + (pre.length + 1 + (e' - 1)) := by
          omega
        rw [hix, ← List.getElem?_drop, ← hdd, hsplit,
          List.getElem?_append_right (by omega)]
        have hix2 : pre.length + 1 + (e' - 1) - pre.length = (e' - 1) + 1 := by omega
        rw [hix2, List.getElem?_cons_succ]
        exact h2
  · rw [if_neg hp] at h
    exact absurd h (by simp)

theorem tryWs_ends (Q rem : List Char) :
    ∀ w e : Nat, tryWs Q rem w = some e → 1 ≤ e ∧ rem[e - 1]? = some '\n' := by
  intro w
  induction w with
  | zero =>
    intro e h
    exact tryAt_ends Q rem 0 e (by simpa [tryWs] using h)
  | succ w ih =>
    intro e h
    simp only [tryWs] at h
    rcases ht : tryAt Q rem (w + 1) with _ | e0
    · rw [ht] at h
      exact ih e h
    · rw [ht] at h
      injection h with h
      subst h
      exact tryAt_ends Q rem (w + 1) e0 ht

theorem matchHere_ends (Q rem : List Char) (e : Nat)
    (h : matchHere Q rem = some e) : 1 ≤ e ∧ rem[e - 1]? = some '\n' :=
  tryWs_ends Q rem _ e h

theorem seekStart_ends (Q : List Char) :
    ∀ (rem : List Char) (s e : Nat), seekStart Q rem = some (s, e) →
      1 ≤ e ∧ rem[e - 1]? = some '\n' := by
  intro rem
  induction rem with
  | nil => intro s e h; simp [seekStart] at h
  | cons c cs ih =>
    intro s e h
    simp only [seekStart] at h
    have hmap : (seekStart Q cs).map (fun p => (p.1 + 1, p.2 + 1)) = some (s, e) →
        1 ≤ e ∧ (c :: cs)[e - 1]? = some '\n' := by
      intro hm
      rcases Option.map_eq_some'.mp hm with ⟨⟨s', e'⟩, hse, heq⟩
      have he : e' + 1 = e := congrArg Prod.snd heq
      obtain ⟨h1, h2⟩ := ih s' e' hse
      subst he
      refine ⟨by omega, ?_⟩
      have hsh : e' + 1 - 1 = (e' - 1) + 1 := by omega
      rw [hsh, List.getElem?_cons_succ]
      exact h2
    by_cases hc : c = '\n'
    · rw [if_pos hc] at h
      rcases hm : matchHere Q cs with _ | e0
      · rw [hm] at h
        exact hmap h
      · rw [hm] at h
        injection h with h
        have he : 1 + e0 = e := congrArg Prod.snd h
        obtain ⟨h1, h2⟩ := matchHere_ends Q cs e0 hm
        subst he
        refine ⟨by omega, ?_⟩
        have hsh : 1 + e0 - 1 = (e0 - 1) + 1 := by omega
        rw [hsh, List.getElem?_cons_succ]
        exact h2
    · rw [if_neg hc] at h
      exact hmap h

theorem pySearch_ends (Q t : List Char) (s e : Nat)
    (h : pySearch Q t = some (s, e)) : 1 ≤ e ∧ t[e - 1]? = some '\n' := by
  unfold pySearch at h
  rcases hm : matchHere Q t with _ | e0
  · rw [hm] at h
    exact seekStart_ends Q t s e h
  · rw [hm] at h
    injection h with h
    have he : e0 = e := congrArg Prod.snd h
    subst he
    exact matchHere_ends Q t e0 hm

/-! ### Session bucketing helpers -/

theorem isPrefixOf_self_append (p : List Char) (s : List Char) :
    p.isPrefixOf (p ++ s) = true :=
  List.isPrefixOf_iff_prefix.mpr (List.prefix_append p s)

theorem containsSub_of_prefixOf (pat l : List Char) (h : pat.isPrefixOf l = true) :
    containsSub pat l = true := by
  cases l with
  | nil => simp only [containsSub]; simp [h]
  | cons c cs => simp only [containsSub]; simp [h]

theorem containsSub_cons (pat : List Char) (c : Char) (cs : List Char)
    (h : containsSub pat cs = true) : containsSub pat (c :: cs) = true := by
  simp only [containsSub]
  simp [h]

theorem containsSub_middle (pat suf : List Char) :
    ∀ pre : List Char, containsSub pat (pre ++ pat ++ suf) = true := by
  intro pre
  induction pre with
  | nil =>
    simp only [List.nil_append]
    exact containsSub_of_prefixOf _ _ (isPrefixOf_self_append pat suf)
  | cons c pre ih =>
    simp only [List.cons_append]
    exact containsSub_cons _ _ _ ih

theorem splitUnd_ne_nil : ∀ l : List Char, splitUnd l ≠ [] := by
  intro l
  cases l with
  | nil => simp [splitUnd]
  | cons c cs =>
    simp only [splitUnd]
    by_cases hc : c = '_'
    · simp [hc]
    · rw [if_neg hc]
      rcases splitUnd cs with _ | ⟨p, ps⟩ <;> simp

theorem splitUnd_append : ∀ code : List Char, '_' ∉ code →
    ∀ rest : List Char, splitUnd (code ++ '_' :: rest) = code :: splitUnd rest := by
  intro code
  induction code with
  | nil => intro _ rest; simp [splitUnd]
  | cons c cs ih =>
    intro hmem rest
    have hc : c ≠ '_' := fun h => hmem (by simp [h])
    have hcs : '_' ∉ cs := fun h => hmem (List.mem_cons_of_mem _ h)
    simp only [List.cons_append, splitUnd, if_neg hc, List.append_eq]
    rw [ih hcs rest]

/-! ### The claims -/

/-- Claim C1: core extraction returns the block starting at the first line
beginning (after optional leading whitespace) with the literally matched
label, through subsequent lines, stopping before the next label-shaped
line, trimmed: `_extract_block "3 Explain motion.\nMore detail.\n4 Next
question.\n" "3" = "3 Explain motion.\nMore detail."`, and with the
parenthesized label `"3(a)"` matched literally, `_extract_block "3(a)
First part.\nText.\n3(b) Second part.\n" "3(a)" = "3(a) First
part.\nText."`. -/
theorem extract_block_basic_and_subpart :
    _extract_block "3 Explain motion.\nMore detail.\n4 Next question.\n" "3" =
        "3 Explain motion.\nMore detail." ∧
      _extract_block "3(a) First part.\nText.\n3(b) Second part.\n" "3(a)" =
        "3(a) First part.\nText." := by
  constructor <;> decide

/-- Claim C2: the stop boundary is any label-shaped line, so requesting a
top-level label stops at its own child's line:
`_extract_block "3 Intro line.\n3(a) Sub part.\n" "3" = "3 Intro line."`. -/
theorem extract_block_parent_stops_at_child :
    _extract_block "3 Intro line.\n3(a) Sub part.\n" "3" = "3 Intro line." := by
  decide

/-- Claim C3: blank input returns the empty-input marker, a non-blank text
with no matching block returns the no-match marker, and the two marker
strings are distinct. -/
theorem extract_block_not_found_markers :
    (∀ text q : String, pyStrip text = "" →
        _extract_block text q = " Not found (empty text).") ∧
      _extract_block "Irrelevant content only.\n" "9" = " Not found." ∧
      (" Not found (empty text)." : String) ≠ " Not found." := by
  refine ⟨?_, by decide, by decide⟩
  intro text q h
  simp [_extract_block, h]

/-- Witness for C3: both `""` and `"   \n  "` are blank, and on them the
function returns the empty-input marker. -/
theorem extract_block_not_found_markers_witness :
    _extract_block "" "3" = " Not found (empty text)." ∧
      _extract_block "   \n  " "3" = " Not found (empty text)." :=
  ⟨extract_block_not_found_markers.1 "" "3" (by decide),
    extract_block_not_found_markers.1 "   \n  " "3" (by decide)⟩

/-- Claim C4: the label is matched as a bare prefix of the line with no
trailing word boundary: on `"30 Question thirty.\nMore.\n"`, where no line
begins with `"3"` as a complete token, the request for `"3"` still returns
a found span starting at the `"30 Question thirty."` line rather than a
not-found marker. -/
theorem extract_block_bare_prefix_match :
    _extract_block "30 Question thirty.\nMore.\n" "3" =
        "30 Question thirty.\nMore." ∧
      _extract_block "30 Question thirty.\nMore.\n" "3" ≠ " Not found." ∧
      _extract_block "30 Question thirty.\nMore.\n" "3" ≠
        " Not found (empty text)." := by
  refine ⟨by decide, by decide, by decide⟩

/-- Claim C5, counterexample: the claim asserts that the line
`"3(A) Upper part."` does not terminate the block for label `"2"`, i.e.
that the extraction would return the span including that line.  It does
not: the boundary pattern matches the bare numeral `"3"` followed by the
word boundary before `"("`, so the extraction stops before that line. -/
theorem extract_block_uppercase_subpart_counterexample :
    _extract_block "2 Intro.\nMore.\n3(A) Upper part.\n" "2" ≠
      "2 Intro.\nMore.\n3(A) Upper part." := by
  decide

/-- Claim C5, amended: an uppercase sub-part is not matched as a
parenthesized sub-part group, but a line such as `"3(A) Upper part."`
still terminates the block, because its leading digits followed by the
word boundary before `"("` already match the boundary pattern; so for
text `"2 Intro.\nMore.\n3(A) Upper part.\n"` and label `"2"` the
extraction stops before the `"3(A) Upper part."` line. -/
theorem extract_block_uppercase_subpart_amended :
    _extract_block "2 Intro.\nMore.\n3(A) Upper part.\n" "2" =
      "2 Intro.\nMore." := by
  decide

/-- Claim C6: when no label-shaped line follows the requested block, the
capture extends to the end of the text:
`_extract_block "7 Final question with no successor.\nLine two.\n" "7"`
returns the full remaining text, trimmed. -/
theorem extract_block_end_of_text :
    _extract_block "7 Final question with no successor.\nLine two.\n" "7" =
      "7 Final question with no successor.\nLine two." := by
  decide

/-- Claim C7: the pattern requires the label line and every captured line
to be newline-terminated: `_extract_block "7 Final" "7"` returns the
no-match marker although a line begins with the label, and, in general,
every found match of the underlying search ends directly after a newline
character of the text, so an unterminated trailing line is never part of a
returned block. -/
theorem extract_block_newline_required :
    _extract_block "7 Final" "7" = " Not found." ∧
      ∀ (Q t : List Char) (s e : Nat), pySearch Q t = some (s, e) →
        1 ≤ e ∧ t[e - 1]? = some '\n' :=
  ⟨by decide, fun Q t s e h => pySearch_ends Q t s e h⟩

/-- Witness for C7: on text `"3 a\n"` with label `"3"` the search returns
the span `(0, 4)`, whose end is directly after the newline at index 3. -/
theorem extract_block_newline_required_witness :
    1 ≤ 4 ∧ ("3 a\n".data)[4 - 1]? = some '\n' :=
  extract_block_newline_required.2 "3".data "3 a\n".data 0 4 (by decide)

/-- Claim C8: `_extract_block` is total — for every pair of strings it
returns a string, which is the empty-input marker, the no-match marker, or
the stripped regex match; all failure is communicated through the returned
not-found values. -/
theorem extract_block_total_outcomes (text q : String) :
    _extract_block text q = " Not found (empty text)." ∨
      _extract_block text q = " Not found." ∨
      ∃ s e : Nat, pySearch (pyStrip q).data text.data = some (s, e) ∧
        _extract_block text q =
          pyStrip (String.mk ((text.data.drop s).take (e - s))) := by
  by_cases h : pyStrip text = ""
  · exact Or.inl (by simp [_extract_block, h])
  · rcases hm : pySearch (pyStrip q).data text.data with _ | ⟨s, e⟩
    · exact Or.inr (Or.inl (by simp [_extract_block, h, hm]))
    · exact Or.inr (Or.inr ⟨s, e, rfl, by simp [_extract_block, h, hm]⟩)

/-- Claim C9: question-paper and marking-scheme extraction use the same
function — `extract_specific_question` and `extract_specific_answer` both
return exactly `_extract_block text question_number` for every input. -/
theorem extract_question_answer_same_function (text question_number : String) :
    extract_specific_question text question_number =
        _extract_block text question_number ∧
      extract_specific_answer text question_number =
        _extract_block text question_number :=
  ⟨rfl, rfl⟩

/-- Claim C10: for a question-paper filename
`<code>_<sessioncode>_qp_<rest>` whose session code is three characters
`c y1 y2`, the bucket label is `"20"` followed by the session code's
second and third characters, then `"-"`, then the month obtained from the
fixed mapping `m → March`, `s → May–June`, `w → Oct–Nov` applied to the
first character lowercased, any other first character leaving the session
code itself in the month position. -/
theorem session_bucketing (code pn : List Char) (c y1 y2 : Char)
    (hcode : '_' ∉ code) (hc : c ≠ '_') (hy1 : y1 ≠ '_') (hy2 : y2 ≠ '_') :
    session_bucket
        (String.mk (code ++ '_' :: c :: y1 :: y2 :: '_' :: 'q' :: 'p' :: '_' :: pn)) =
      some (String.mk ('2' :: '0' :: y1 :: y2 :: '-' ::
        month_map c.toLower [c, y1, y2])) := by
  have hqp : "_qp_".data = ['_', 'q', 'p', '_'] := rfl
  have hcontains :
      containsSub "_qp_".data
        (code ++ '_' :: c :: y1 :: y2 :: '_' :: 'q' :: 'p' :: '_' :: pn) = true := by
    have h := containsSub_middle "_qp_".data pn (code ++ ['_', c, y1, y2])
    rw [hqp] at h
    simpa using h
  have hsplit :
      splitUnd (code ++ '_' :: c :: y1 :: y2 :: '_' :: 'q' :: 'p' :: '_' :: pn) =
        code :: [c, y1, y2] :: ['q', 'p'] :: splitUnd pn := by
    rw [splitUnd_append code hcode]
    simp only [splitUnd, if_neg hc, if_neg hy1, if_neg hy2]
    simp
  obtain ⟨p0, ps0, hps⟩ := List.exists_cons_of_ne_nil (splitUnd_ne_nil pn)
  simp only [session_bucket, hcontains, if_pos rfl, hsplit, hps]
  simp

/-- Witness for C10: the two session codes of the spec's examples. -/
theorem session_bucketing_witness :
    session_bucket "9702_m24_qp_22.pdf" = some "2024-March" ∧
      session_bucket "9702_s23_qp_11.pdf" = some "2023-May–June" := by
  constructor
  · exact session_bucketing "9702".data "22.pdf".data 'm' '2' '4'
      (by decide) (by decide) (by decide) (by decide)
  · exact session_bucketing "9702".data "11.pdf".data 's' '2' '3'
      (by decide) (by decide) (by decide) (by decide)

end AipastPaper
